import Mathlib

/-!
# Verification of the HRS time-delay detector against its specification

Shallow embedding of the core of the `hrs-detector` repository:

* `src/src/clients/http1.py`  — byte-faithful HTTP/1.1 serialiser, response
  framing decision, content-length and chunked body readers;
* `src/src/clients/http2.py`  — malformed-header assembly, per-stream event
  pump (`_process_incoming_data`) and response reconstruction;
* `src/src/detectors/cl_te_detector.py`, `te_cl_detector.py`,
  `h2_te_detector.py` — the baseline/probe/confirm engines and their
  mutation loops.

Wire text is modelled as `List Char` (one `Char` per byte; every byte the
claims exercise is in the ASCII range).  Python exceptions that the source
lets escape are modelled with `Except`; exception paths that the source
catches are folded into the returned value, mirroring the `try/except`
structure of the corresponding function.  Response times are modelled as
rationals (the detectors only compare and divide them).
-/

namespace HrsDetector

/-- Wire text: one `Char` per byte. -/
abbrev Str := List Char

/-- Shorthand turning a string literal into wire text. -/
def S (s : String) : Str := s.toList

/-! ## Model of Python `int(str)` / `int(str, 16)`

`int` strips ASCII whitespace, accepts an optional sign, for base 16 an
optional `0x`/`0X` prefix, and digits with PEP 515 single-underscore
separators.  Non-ASCII digits are outside the model. -/

/-- ASCII whitespace, as stripped by Python `str.strip` / `bytes.strip`. -/
def isPyWs (c : Char) : Bool :=
  c = ' ' || c = '\t' || c = '\n' || c = '\r' || c = '\x0b' || c = '\x0c'

/-- Strip leading and trailing ASCII whitespace. -/
def stripWs (l : Str) : Str :=
  ((l.dropWhile isPyWs).reverse.dropWhile isPyWs).reverse

def isDecDigit (c : Char) : Bool := '0' ≤ c && c ≤ '9'

def isHexDigit (c : Char) : Bool :=
  isDecDigit c || ('a' ≤ c && c ≤ 'f') || ('A' ≤ c && c ≤ 'F')

def digitVal (c : Char) : Nat :=
  if isDecDigit c then c.toNat - '0'.toNat
  else if 'a' ≤ c && c ≤ 'f' then c.toNat - 'a'.toNat + 10
  else if 'A' ≤ c && c ≤ 'F' then c.toNat - 'A'.toNat + 10
  else 0

/-- Digit run with PEP 515 underscores: nonempty, starts and ends with a
digit, an underscore is always followed by a digit. -/
def digitRunOk (isD : Char → Bool) : Str → Bool
  | [] => false
  | [c] => isD c
  | c :: '_' :: rest => isD c && digitRunOk isD rest
  | c :: rest => isD c && digitRunOk isD rest

/-- Numeric value of a digit run, underscores skipped. -/
def digitRunVal (base : Nat) (l : Str) : Nat :=
  (l.filter (· ≠ '_')).foldl (fun a c => base * a + digitVal c) 0

/-- Model of Python `int(s, base)` for base 10 (`hex = false`) and
base 16 (`hex = true`): `none` models a raised `ValueError`. -/
def pyInt (hex : Bool) (s : Str) : Option Int :=
  let t := stripWs s
  let (sign, t) : Int × Str :=
    match t with
    | '+' :: r => (1, r)
    | '-' :: r => (-1, r)
    | _ => (1, t)
  let (hadPrefix, t) : Bool × Str :=
    if hex then
      match t with
      | '0' :: 'x' :: r => (true, r)
      | '0' :: 'X' :: r => (true, r)
      | _ => (false, t)
    else (false, t)
  -- after a `0x` prefix a single leading underscore is allowed
  let t := if hadPrefix then (match t with
    | '_' :: r => r
    | _ => t) else t
  let isD := if hex then isHexDigit else isDecDigit
  if digitRunOk isD t then
    some (sign * (digitRunVal (if hex then 16 else 10) t : Int))
  else
    none

example : pyInt false (S "42") = some 42 := by decide
example : pyInt false (S " -5 ") = some (-5) := by decide
example : pyInt false (S "4_2") = some 42 := by decide
example : pyInt false (S "4__2") = none := by decide
example : pyInt false (S "") = none := by decide
example : pyInt false (S "x") = none := by decide
example : pyInt true (S "1f") = some 31 := by decide
example : pyInt true (S "-1") = some (-1) := by decide
example : pyInt true (S "0x1F") = some 31 := by decide
example : pyInt true (S "g") = none := by decide

/-! ## HTTP/1.1 request serialiser (`HTTP1Client._build_request`)

The source builds a list of string parts — the request line, one part per
header pair, the blank line — joins them and appends the body bytes. -/

/-- One header line, exactly as the source's `f"{name}: {value}\r\n"`. -/
def headerLine (nv : Str × Str) : Str := nv.1 ++ S ": " ++ nv.2 ++ S "\r\n"

/-- `HTTP1Client._build_request`: parts list, joined, body appended.
`headers` is used exactly as given — order, case, duplicates and
whitespace preserved; nothing is added. -/
def buildRequest (method path : Str) (headers : List (Str × Str)) (body : Str) : Str :=
  let requestParts : List Str :=
    (method ++ S " " ++ path ++ S " HTTP/1.1\r\n") :: headers.map headerLine ++ [S "\r\n"]
  requestParts.flatten ++ body

/-- The spec's serialisation grammar, written out as one concatenation:
`<method> SP <path> SP "HTTP/1.1" CRLF (<name>: <value> CRLF)* CRLF <body>`. -/
def specSerialisation (method path : Str) (headers : List (Str × Str)) (body : Str) : Str :=
  method ++ S " " ++ path ++ S " HTTP/1.1\r\n"
    ++ (headers.map headerLine).flatten
    ++ S "\r\n" ++ body

/-! ## HTTP/1.1 response framing decision (`HTTP1Client._parse_response`)

After the header block is parsed into (already stripped) name/value pairs,
the source scans them in order: every `content-length` header whose value
`int()` can parse overwrites the remembered length; any `transfer-encoding`
header whose lowercased value contains `chunked` sets the chunked flag. -/

/-- Case-insensitive substring test, modelling Python `"chunked" in value.lower()`. -/
def containsSub (needle hay : Str) : Bool :=
  hay.tails.any (fun t => needle.isPrefixOf t)

def lowerStr (l : Str) : Str := l.map Char.toLower

/-- One step of the header scan of `_parse_response` (lines 317–325):
state is `(content_length, chunked)`. -/
def framingStep (st : Option Int × Bool) (nv : Str × Str) : Option Int × Bool :=
  if lowerStr nv.1 = S "content-length" then
    match pyInt false nv.2 with
    | some v => (some v, st.2)
    | none => st                -- `except ValueError: pass`
  else if lowerStr nv.1 = S "transfer-encoding" && containsSub (S "chunked") (lowerStr nv.2) then
    (st.1, true)
  else
    st

/-- Body framing the response reader settles on. -/
inductive BodyFraming where
  | chunked
  | contentLength (n : Int)
  | untilClose
  deriving DecidableEq, Repr

/-- The framing decision of `_parse_response` (lines 313–334): chunked wins,
then a parsed content-length, else read until the peer closes. -/
def decideFraming (headers : List (Str × Str)) : BodyFraming :=
  let st := headers.foldl framingStep (none, false)
  if st.2 then .chunked
  else match st.1 with
    | some n => .contentLength n
    | none => .untilClose

/-- `HTTP1Client._read_content_length_body` over the bytes the peer will
deliver before closing: zero length returns the empty body at once; a
negative length reaches `readexactly(n)` with `n < 0`, which raises a
`ValueError` (modelled as `.error`); otherwise `readexactly` returns the
first `n` bytes, or — if the peer closes first — the partial buffer. -/
def readContentLengthBody (n : Int) (stream : Str) : Except Unit Str :=
  if n = 0 then .ok []
  else if n < 0 then .error ()
  else if n.toNat ≤ stream.length then .ok (stream.take n.toNat)
  else .ok stream

/-! ## HTTP/1.1 chunked decoder (`HTTP1Client._read_chunked_body`)

The stream is the byte sequence the peer delivers before closing, so a
failed `readuntil`/`readexactly` is an `IncompleteReadError` — which the
source catches by `break`ing out with the body decoded so far.  The one
uncaught path: a size line that `int(_, 16)` parses to a *negative* number
reaches `readexactly(chunk_size)` with a negative argument, which raises a
`ValueError` that no handler in the function catches. -/

/-- `reader.readuntil(b"\r\n")`: the line including the (first) CRLF, and
the rest; `none` models `IncompleteReadError` (no CRLF before the peer
closes). -/
def splitAtCRLF : Str → Option (Str × Str)
  | [] => none
  | c :: rest =>
    if c = '\r' ∧ rest.head? = some '\n' then
      some (['\r', '\n'], rest.tail)
    else
      match splitAtCRLF rest with
      | some (line, r) => some (c :: line, r)
      | none => none

/-- `reader.readexactly(n)` for `n ≥ 0`: `none` models `IncompleteReadError`. -/
def readExactly (n : Nat) (s : Str) : Option (Str × Str) :=
  if n ≤ s.length then some (s.take n, s.drop n) else none

/-- The loop body of `_read_chunked_body`, fuel-bounded (each iteration
consumes at least the CRLF of the size line, so `stream.length + 1` fuel —
supplied by `readChunkedBody` — is never exhausted).  `.error` models the
uncaught `ValueError` of `readexactly` on a negative chunk size. -/
def readChunkedCore : Nat → Str → Str → Except Unit Str
  | 0, _, acc => .ok acc
  | Nat.succ fuel, s, acc =>
    match splitAtCRLF s with
    | none => .ok acc                                    -- incomplete size line
    | some (line, rest) =>
      let sizeField := stripWs (line.takeWhile (· ≠ ';'))  -- `split(b";")[0].strip()`
      match pyInt true sizeField with
      | none => .ok acc                                  -- invalid hex size
      | some size =>
        if size = 0 then .ok acc                         -- terminating chunk
        else if size < 0 then .error ()                  -- readexactly(<0): ValueError
        else
          match readExactly size.toNat rest with
          | none => .ok acc                              -- incomplete chunk data
          | some (chunk, rest2) =>
            match readExactly 2 rest2 with               -- CRLF after the chunk
            | none => .ok (acc ++ chunk)                 -- incomplete trailing CRLF
            | some (_, rest3) => readChunkedCore fuel rest3 (acc ++ chunk)

/-- `HTTP1Client._read_chunked_body` over the delivered byte stream. -/
def readChunkedBody (s : Str) : Except Unit Str :=
  readChunkedCore (s.length + 1) s []

example : readChunkedBody (S "1\r\nZ\r\n0\r\n\r\n") = .ok (S "Z") := rfl
example : readChunkedBody (S "3\r\nabc\r\n2\r\nde\r\n0\r\n\r\n") = .ok (S "abcde") := rfl
example : readChunkedBody (S "3;ext=1\r\nabc\r\n0\r\n\r\n") = .ok (S "abc") := rfl
example : readChunkedBody (S "5\r\nab") = .ok (S "") := rfl
example : readChunkedBody (S "zz\r\nab") = .ok (S "") := rfl
example : readChunkedBody (S "1\r\nZ\r\n5\r\nab") = .ok (S "Z") := rfl
example : readChunkedBody (S "-1\r\nabc") = .error () := rfl

/-! ## CL.TE and TE.CL detectors

`test_cl_te_with_header` / `test_te_cl_with_header` each send one probe and
— only when the probe raised `asyncio.TimeoutError` — one confirmation
request.  The per-mutation outcome of each network interaction is abstracted
as a `ProbeOutcome`; the control flow around it is translated statement by
statement. -/

/-- Outcome of one `send_request` call as seen by the detector's
`try/except`: a completed response with its status and wall-clock time, an
`asyncio.TimeoutError`, or any other exception. -/
inductive ProbeOutcome where
  | completed (status : Nat) (time : ℚ)
  | timedOut (time : ℚ)
  | failed
  deriving DecidableEq, Repr

def ProbeOutcome.isTimeout : ProbeOutcome → Bool
  | .timedOut _ => true
  | _ => false

/-- The result dictionary of `test_cl_te_with_header` /
`test_te_cl_with_header`, restricted to the fields the engine reads. -/
structure HeaderTestResult where
  timedOut : Bool
  vulnerable : Bool
  errored : Bool
  statusCode : Option Nat
  testTime : ℚ
  confirmAttempted : Bool
  confirmTimedOut : Option Bool
  confirmStatus : Option Nat
  deriving DecidableEq, Repr

/-- Probe headers of the CL.TE probe (lines 80–97 of
`cl_te_detector.py`): `Host`, `Content-Type`, `Content-Length: 4`, the
custom headers, the mutation header, the mutation's extra headers. -/
def clTeProbeHeaders (host : Str) (custom : List (Str × Str))
    (teName teValue : Str) (extras : List (Str × Str)) : List (Str × Str) :=
  [(S "Host", host), (S "Content-Type", S "application/x-www-form-urlencoded"),
   (S "Content-Length", S "4")] ++ custom ++ [(teName, teValue)] ++ extras

/-- CL.TE probe body: `1\r\nZ\r\nQ\r\n`. -/
def clTeProbeBody : Str := S "1\r\nZ\r\nQ\r\n"

/-- CL.TE confirmation headers: as the probe but `Content-Length: 11`. -/
def clTeConfirmHeaders (host : Str) (custom : List (Str × Str))
    (teName teValue : Str) (extras : List (Str × Str)) : List (Str × Str) :=
  [(S "Host", host), (S "Content-Type", S "application/x-www-form-urlencoded"),
   (S "Content-Length", S "11")] ++ custom ++ [(teName, teValue)] ++ extras

/-- CL.TE confirmation body: properly terminated chunked data. -/
def clTeConfirmBody : Str := S "1\r\nZ\r\n0\r\n\r\n"

/-- TE.CL probe headers: `Content-Length: 6` (lines 80–97 of
`te_cl_detector.py`). -/
def teClProbeHeaders (host : Str) (custom : List (Str × Str))
    (teName teValue : Str) (extras : List (Str × Str)) : List (Str × Str) :=
  [(S "Host", host), (S "Content-Type", S "application/x-www-form-urlencoded"),
   (S "Content-Length", S "6")] ++ custom ++ [(teName, teValue)] ++ extras

/-- TE.CL probe body: `0\r\n\r\nX`. -/
def teClProbeBody : Str := S "0\r\n\r\nX"

/-- TE.CL confirmation headers: `Content-Length: 5`, same body as the probe. -/
def teClConfirmHeaders (host : Str) (custom : List (Str × Str))
    (teName teValue : Str) (extras : List (Str × Str)) : List (Str × Str) :=
  [(S "Host", host), (S "Content-Type", S "application/x-www-form-urlencoded"),
   (S "Content-Length", S "5")] ++ custom ++ [(teName, teValue)] ++ extras

/-- Control flow of `test_cl_te_with_header` (lines 120–226): a completed
probe records its status and returns — no confirmation is ever attempted; a
non-timeout exception returns early; a timed-out probe triggers the
confirmation request, and `vulnerable` is set exactly when the confirmation
completes without an exception. -/
def testClTeWithHeader (probe confirm : ProbeOutcome) : HeaderTestResult :=
  match probe with
  | .failed =>
    { timedOut := false, vulnerable := false, errored := true, statusCode := none,
      testTime := 0, confirmAttempted := false, confirmTimedOut := none, confirmStatus := none }
  | .completed status t =>
    { timedOut := false, vulnerable := false, errored := false, statusCode := some status,
      testTime := t, confirmAttempted := false, confirmTimedOut := none, confirmStatus := none }
  | .timedOut t =>
    match confirm with
    | .completed cs _ =>
      { timedOut := true, vulnerable := true, errored := false, statusCode := none,
        testTime := t, confirmAttempted := true, confirmTimedOut := some false,
        confirmStatus := some cs }
    | .timedOut _ =>
      { timedOut := true, vulnerable := false, errored := false, statusCode := none,
        testTime := t, confirmAttempted := true, confirmTimedOut := some true,
        confirmStatus := none }
    | .failed =>
      { timedOut := true, vulnerable := false, errored := false, statusCode := none,
        testTime := t, confirmAttempted := true, confirmTimedOut := none,
        confirmStatus := none }

/-- `test_te_cl_with_header` has the same control flow (lines 120–219 of
`te_cl_detector.py`); only the header/body constants above differ. -/
def testTeClWithHeader (probe confirm : ProbeOutcome) : HeaderTestResult :=
  testClTeWithHeader probe confirm

/-- The per-mutation finding test of the engines' loops
(`if result['timed_out'] or result.get('vulnerable', False)`). -/
def findingEmitted (r : HeaderTestResult) : Bool :=
  r.timedOut || r.vulnerable

/-- The probe loop of `test_cl_te` / `test_te_cl` (lines 330–365 resp.
321–349): every mutation is tested; a mutation whose result passes
`findingEmitted` is appended to the findings, and with `exit_first` the loop
breaks right after the first such mutation.  Mutations are paired with the
probe and confirmation outcomes their requests would see; the second
component of the result counts the mutations actually probed. -/
def detectorScan {α : Type} (exitFirst : Bool) :
    List (α × ProbeOutcome × ProbeOutcome) → List α × Nat
  | [] => ([], 0)
  | (m, p, c) :: rest =>
    let r := testClTeWithHeader p c
    if findingEmitted r then
      if exitFirst then ([m], 1)
      else
        let (fs, n) := detectorScan exitFirst rest
        (m :: fs, n + 1)
    else
      let (fs, n) := detectorScan exitFirst rest
      (fs, n + 1)

/-! ## Target resolution (claim C7)

`test_cl_te_with_header` derives host, port and TLS from the parsed URL
(lines 39–51), honouring an explicit `host:port` in the netloc; the baseline
client of `test_cl_te` (lines 303–309) instead derives the port and TLS mode
from the scheme prefix alone.  `urlparse` is modelled for well-formed
`scheme://netloc/path` URLs.  `te_cl_detector.py` lines 39–51 and 294–300
are character-for-character the same. -/

/-- First occurrence of `pat`: the part before it and the part after it. -/
def splitOnSub (pat : Str) : Str → Option (Str × Str)
  | [] => if pat = [] then some ([], []) else none
  | c :: rest =>
    if pat.isPrefixOf (c :: rest) then some ([], (c :: rest).drop pat.length)
    else match splitOnSub pat rest with
      | some (pre, post) => some (c :: pre, post)
      | none => none

/-- `urlparse(url).scheme` (lowercased by `urlparse`; the detector lowercases
again). -/
def urlScheme (url : Str) : Str :=
  match splitOnSub (S "://") url with
  | some (pre, _) => lowerStr pre
  | none => []

/-- `urlparse(url).netloc`: between `://` and the next `/`. -/
def urlNetloc (url : Str) : Str :=
  match splitOnSub (S "://") url with
  | some (_, post) => post.takeWhile (· ≠ '/')
  | none => []

/-- `host.rsplit(":", 1)`: split at the last colon, if any. -/
def rsplitColon (l : Str) : Option (Str × Str) :=
  let revTail := l.reverse.takeWhile (· ≠ ':')
  if revTail.length = l.length then none
  else some ((l.reverse.drop (revTail.length + 1)).reverse, revTail.reverse)

/-- Connection coordinates of one client. -/
structure ConnTarget where
  host : Str
  port : Int
  tls : Bool
  deriving DecidableEq, Repr

/-- The probe client's coordinates (`test_cl_te_with_header` lines 39–51):
`host:port` honoured when the netloc carries a colon, scheme default
otherwise. -/
def probeTarget (url : Str) : ConnTarget :=
  let scheme := urlScheme url
  let netloc := urlNetloc url
  match rsplitColon netloc with
  | some (h, p) =>
    { host := h, port := (pyInt false p).getD 0, tls := scheme = S "https" }
  | none =>
    { host := netloc, port := if scheme = S "https" then 443 else 80,
      tls := scheme = S "https" }

/-- The baseline client's coordinates (`test_cl_te` lines 303–308):
`netloc.split(":")[0]` for the host, but the port and TLS flag are decided
only by `url.startswith("https")`. -/
def baselineTarget (url : Str) : ConnTarget :=
  { host := (urlNetloc url).takeWhile (· ≠ ':'),
    port := if (S "https").isPrefixOf url then 443 else 80,
    tls := (S "https").isPrefixOf url }

example : probeTarget (S "http://example.com:8080/") =
    { host := S "example.com", port := 8080, tls := false } := by decide
example : baselineTarget (S "http://example.com:8080/") =
    { host := S "example.com", port := 80, tls := false } := by decide
example : probeTarget (S "https://example.com/x") =
    { host := S "example.com", port := 443, tls := true } := by decide
example : baselineTarget (S "https://example.com/x") =
    { host := S "example.com", port := 443, tls := true } := by decide

/-! ## HTTP/2 malformed header assembly (`HTTP2Client.send_malformed_headers`)

Lines 552–581: four default pseudo-headers, then the caller's
`pseudo_headers` verbatim, then the regular `headers` — a name starting with
`:` replaces the first existing header of that exact name (or is appended if
absent), any other name is lowercased and appended. -/

def startsColon : Str → Bool
  | c :: _ => c == ':'
  | [] => false

/-- The scan-and-replace of lines 569–578: replace the first pair whose name
equals `n`, append `(n, v)` if no pair matches. -/
def replaceFirst (acc : List (Str × Str)) (n v : Str) : List (Str × Str) :=
  match acc with
  | [] => [(n, v)]
  | (hn, hv) :: rest =>
    if hn = n then (n, v) :: rest else (hn, hv) :: replaceFirst rest n v

/-- Processing of one entry of the `headers` argument (lines 566–581). -/
def addHeader (acc : List (Str × Str)) (nv : Str × Str) : List (Str × Str) :=
  if startsColon nv.1 then replaceFirst acc nv.1 nv.2
  else acc ++ [(lowerStr nv.1, nv.2)]

/-- The four default pseudo-headers of lines 556–559
(`:authority` is `f"{host}:{port}"`). -/
def defaultPseudos (method path host : Str) (port : Nat) (useTls : Bool) : List (Str × Str) :=
  [(S ":method", method), (S ":path", path),
   (S ":scheme", if useTls then S "https" else S "http"),
   (S ":authority", host ++ ':' :: Nat.toDigits 10 port)]

/-- The full header list `send_malformed_headers` hands to
`h2_conn.send_headers`. -/
def buildMalformedHeaders (method path host : Str) (port : Nat) (useTls : Bool)
    (pseudoHeaders headers : List (Str × Str)) : List (Str × Str) :=
  headers.foldl addHeader (defaultPseudos method path host port useTls ++ pseudoHeaders)

example :
    buildMalformedHeaders (S "GET") (S "/") (S "h") 443 true
      [(S ":method", S "POST")] [(S ":path", S "/x"), (S "X-C", S "v")] =
    [(S ":method", S "GET"), (S ":path", S "/x"), (S ":scheme", S "https"),
     (S ":authority", S "h:443"), (S ":method", S "POST"), (S "x-c", S "v")] := by decide

/-! ## H2.TE detector (`test_h2_te_vulnerability`) -/

/-- One entry of the built-in mutation catalogue of `h2_te_detector.py`
lines 137–166. -/
structure H2Mutation where
  description : String
  headerName : Str
  headerValue : Str
  mtype : String
  deriving DecidableEq, Repr

/-- The four built-in H2.TE mutations, verbatim. -/
def h2TeMutations : List H2Mutation :=
  [{ description := "Standard Transfer-Encoding header",
     headerName := S "transfer-encoding", headerValue := S "chunked",
     mtype := "normal_header" },
   { description := "H2.TE via Request Header Injection in Custom Header Value",
     headerName := S "x-custom",
     headerValue := S "foo\r\ntransfer-encoding: chunked",
     mtype := "custom_header_value" },
   { description := "H2.TE via Request Header Injection in Custom Header Name",
     headerName := S "x-custom:foo\r\ntransfer-encoding",
     headerValue := S "chunked",
     mtype := "custom_header_name" },
   { description := "H2.TE via Request Line Injection",
     headerName := S ":method",
     headerValue := S "POST / HTTP/1.1\r\nTransfer-encoding: chunked\r\nx: x",
     mtype := "request_line" }]

/-- Lines 169–178: with a placement filter only the matching mutations are
kept; without one every catalogue entry is iterated. -/
def filteredMutations (payloadPlacement : Option String) : List H2Mutation :=
  match payloadPlacement with
  | none => h2TeMutations
  | some p => h2TeMutations.filter (fun m => m.mtype = p)

/-- The default `request_headers` of lines 104–110. -/
def h2BaseRequestHeaders : List (Str × Str) :=
  [(S "user-agent",
    S "Mozilla/5.0 (Windows NT 10.0; Win64; x64) AppleWebKit/537.36 (KHTML, like Gecko) Chrome/135.0.0.0 Safari/537.36"),
   (S "accept", S "*/*"),
   (S "accept-encoding", S "gzip, deflate, br"),
   (S "accept-language", S "en-US;q=0.9,en;q=0.8"),
   (S "cache-control", S "max-age=0")]

/-- Lines 207–238: the header list for one mutation's probe.  The source
branches on the `payload_placement` *argument* (not on the mutation's own
`type` field — the local `mutation_type` is assigned on line 190 and never
used), with one branch per placement string and no `else`; when
`payload_placement` is `None` every comparison is false and the mutation
header is never appended. -/
def buildH2TestHeaders (payloadPlacement : Option String)
    (requestHeaders : List (Str × Str)) (m : H2Mutation) : List (Str × Str) :=
  if payloadPlacement = some "normal_header" then
    requestHeaders ++ [(m.headerName, m.headerValue)]
  else if payloadPlacement = some "custom_header_value" then
    requestHeaders ++ [(m.headerName, m.headerValue)]
  else if payloadPlacement = some "custom_header_name" then
    requestHeaders ++ [(m.headerName, m.headerValue)]
  else if payloadPlacement = some "request_line" then
    requestHeaders ++ [(m.headerName, m.headerValue)]
  else
    requestHeaders

/-- The H2.TE vulnerability decision of lines 267–288: flagged when the
probe takes strictly more than 3× the baseline, or responds 408/400/500 in
strictly more than 1.5× the baseline.  (`status_code` is `None` when no
response arrived; `None in [408, 400, 500]` is false.) -/
def h2IsVulnerable (baseline : ℚ) (status : Option Nat) (time : ℚ) : Bool :=
  let iv := time > baseline * 3
  if (status = some 408 || status = some 400 || status = some 500)
      && time > baseline * 3 / 2 then true else iv

/-- The mutation loop of lines 181–313, restricted to the outcome data it
branches on: each mutation's probe yields a status and a response time; a
vulnerable result is appended to the findings and, with `exit_first`, the
loop breaks.  The second component counts the mutations actually probed. -/
def h2Scan (exitFirst : Bool) (baseline : ℚ) :
    List (H2Mutation × Option Nat × ℚ) → List H2Mutation × Nat
  | [] => ([], 0)
  | (m, status, t) :: rest =>
    if h2IsVulnerable baseline status t then
      if exitFirst then ([m], 1)
      else
        let (fs, n) := h2Scan exitFirst baseline rest
        (m :: fs, n + 1)
    else
      let (fs, n) := h2Scan exitFirst baseline rest
      (fs, n + 1)

/-! ## HTTP/2 response pump (`HTTP2Client._process_incoming_data`,
`_parse_response`, and the read phases of `send_request` /
`send_malformed_headers`)

A connected client's reads are driven by the peer: each read either times
out, returns nothing (peer closed), raises (connection/framer error), or
delivers bytes that the `h2` framer turns into a list of events.  That
per-read behaviour is the `ReadScript`.  `_process_incoming_data` catches
`asyncio.TimeoutError`, `ConnectionError` and every other exception and
returns the events gathered so far, so the pump is a total function of the
script. -/

/-- An `h2` event, restricted to the classes `_process_incoming_data` and
`_parse_response` inspect. -/
inductive H2Event where
  | responseReceived (sid : Nat) (hdrs : List (Str × Str))
  | dataReceived (sid : Nat) (data : Str)
  | streamEnded (sid : Nat)
  | streamReset (sid : Nat)
  | connLevel
  deriving DecidableEq, Repr

/-- `event.stream_id` when the event has one. -/
def H2Event.streamId : H2Event → Option Nat
  | .responseReceived sid _ => some sid
  | .dataReceived sid _ => some sid
  | .streamEnded sid => some sid
  | .streamReset sid => some sid
  | .connLevel => none

/-- What one `await reader.read(65535)` (plus `receive_data`) produces. -/
inductive ReadOutcome where
  | timeout
  | connClosed
  | connError
  | dataRead (events : List H2Event)
  deriving DecidableEq, Repr

abbrev ReadScript := List ReadOutcome

/-- Per-stream bookkeeping: `_response_events[sid]`, `_response_data[sid]`,
`_response_streams[sid]`. -/
structure H2StreamState where
  events : List H2Event
  data : Str
  ended : Bool
  deriving DecidableEq, Repr

def H2StreamState.init : H2StreamState := { events := [], data := [], ended := false }

/-- Lines 319–334: file the new events for the stream, accumulate DATA
bytes, and mark the stream ended on `StreamEnded`/`StreamReset`. -/
def recordEvents (sid : Nat) (evts : List H2Event) (st : H2StreamState) : H2StreamState :=
  { events := st.events ++ evts.filter (fun e => e.streamId = some sid),
    data := st.data ++ (evts.filterMap (fun e =>
      match e with
      | .dataReceived s d => if s = sid then some d else none
      | _ => none)).flatten,
    ended := st.ended || evts.any (fun e =>
      match e with
      | .streamEnded s => s = sid
      | .streamReset s => s = sid
      | _ => false) }

/-- `_process_incoming_data(stream_id)` (lines 278–370) over a read script.
A timed-out, closed or erroring read ends the pump with the events gathered
so far (every exception is caught); after a successful read the pump
recurses while the stream has not ended.  Returns the updated stream state,
the events this call returned, and the unconsumed remainder of the script
(an exhausted script is a read that never completes: a timeout). -/
def processIncomingData (sid : Nat) :
    ReadScript → H2StreamState → H2StreamState × List H2Event × ReadScript
  | [], st => (st, [], [])
  | .timeout :: rest, st => (st, [], rest)
  | .connClosed :: rest, st => (st, [], rest)
  | .connError :: rest, st => (st, [], rest)
  | .dataRead evts :: rest, st =>
    let st' := recordEvents sid evts st
    if st'.ended then (st', evts, rest)
    else
      let (st'', more, rem) := processIncomingData sid rest st'
      (st'', evts ++ more, rem)

/-- `HTTP2Client._parse_response` inner loop: walk the stream's events; for
every `ResponseReceived`, `:status` is parsed with `int()` (a raised
`ValueError` is `.error`), other pseudo-headers are dropped, and remaining
headers are collected in order. -/
def collectResponseHeaders :
    List (Str × Str) → Option Int → List (Str × Str) →
    Except Unit (Option Int × List (Str × Str))
  | [], status, hdrs => .ok (status, hdrs)
  | (n, v) :: rest, status, hdrs =>
    if n = S ":status" then
      match pyInt false v with
      | some k => collectResponseHeaders rest (some k) hdrs
      | none => .error ()
    else if startsColon n then collectResponseHeaders rest status hdrs
    else collectResponseHeaders rest status (hdrs ++ [(n, v)])

/-- `HTTP2Client._parse_response` over the filed events (lines 758–790). -/
def parseH2Events :
    List H2Event → Option Int → List (Str × Str) →
    Except Unit (Option Int × List (Str × Str))
  | [], status, hdrs => .ok (status, hdrs)
  | .responseReceived _ hs :: rest, status, hdrs =>
    match collectResponseHeaders hs status hdrs with
    | .error e => .error e
    | .ok (status', hdrs') => parseH2Events rest status' hdrs'
  | _ :: rest, status, hdrs => parseH2Events rest status hdrs

/-- The `response_info` and body `send_request` / `send_malformed_headers`
return. -/
structure H2ResponseInfo where
  statusCode : Option Int
  headers : List (Str × Str)
  body : Str
  deriving DecidableEq, Repr

/-- `HTTP2Client._parse_response(stream_id)` on a filed stream state:
status and headers from the `ResponseReceived` events, body from the
accumulated DATA bytes. -/
def mkH2Response (st : H2StreamState) : Except Unit H2ResponseInfo :=
  match parseH2Events st.events none [] with
  | .error e => .error e
  | .ok (status, hdrs) => .ok { statusCode := status, headers := hdrs, body := st.data }

/-- Read-and-parse phase of `send_malformed_headers` (lines 624–640): one
`_process_incoming_data` call, then `_parse_response` on the filed state. -/
def sendMalformedHeadersResponse (sid : Nat) (script : ReadScript) :
    Except Unit H2ResponseInfo :=
  mkH2Response (processIncomingData sid script H2StreamState.init).1

/-- `e` is a `ResponseReceived` for stream `sid`. -/
def isResponseFor (sid : Nat) (e : H2Event) : Bool :=
  match e with
  | .responseReceived s _ => s = sid
  | _ => false

/-- The retry loop of `send_request` lines 472–494: up to `max_attempts = 3`
pump rounds, each one's `asyncio.TimeoutError` caught and `continue`d,
stopping early once a returned event is a `ResponseReceived` for the
stream. -/
def sendRequestAttempts (sid : Nat) : Nat → ReadScript → H2StreamState → H2StreamState
  | 0, _, st => st
  | Nat.succ k, script, st =>
    let (st', evts, rem) := processIncomingData sid script st
    if evts.any (isResponseFor sid) then st'
    else sendRequestAttempts sid k rem st'

/-- Read-and-parse phase of `send_request` (lines 472–510). -/
def sendRequestResponse (sid : Nat) (script : ReadScript) :
    Except Unit H2ResponseInfo :=
  mkH2Response (sendRequestAttempts sid 3 script H2StreamState.init)

/-- All events any read of the script can deliver. -/
def scriptEvents (script : ReadScript) : List H2Event :=
  (script.filterMap (fun r =>
    match r with
    | .dataRead evts => some evts
    | _ => none)).flatten

example :
    sendMalformedHeadersResponse 1
      [.dataRead [.dataReceived 1 (S "ab"), .connLevel], .timeout] =
    .ok { statusCode := none, headers := [], body := S "ab" } := rfl
example :
    sendRequestResponse 1 [.timeout, .timeout, .timeout] =
    .ok { statusCode := none, headers := [], body := [] } := rfl
example :
    sendMalformedHeadersResponse 1
      [.dataRead [.responseReceived 1 [(S ":status", S "200"), (S "server", S "x")],
                  .dataReceived 1 (S "hi"), .streamEnded 1]] =
    .ok { statusCode := some 200, headers := [(S "server", S "x")], body := S "hi" } := rfl

/-! ## Helper lemmas -/

/-- A probe's result passes the engines' finding test exactly when the probe
itself timed out: the confirmation outcome never changes it. -/
theorem findingEmitted_testClTe (p c : ProbeOutcome) :
    findingEmitted (testClTeWithHeader p c) = p.isTimeout := by
  cases p <;> cases c <;> rfl

/-- The confirmation request is attempted exactly when the probe timed
out. -/
theorem confirmAttempted_testClTe (p c : ProbeOutcome) :
    (testClTeWithHeader p c).confirmAttempted = p.isTimeout := by
  cases p <;> cases c <;> rfl

/-! ## C4 — HTTP/1.1 serialisation fidelity -/

/-- C4 (confirmed).  For every method, path, ordered header list (duplicate
names, mixed case and padded values included) and body, `_build_request`
produces exactly the spec's concatenation `<method> SP <path> SP "HTTP/1.1"
CRLF (<name>: <value> CRLF)* CRLF <body>` — the headers in the given order,
untouched, with no auto-added Host or Content-Length. -/
theorem c4_build_request_is_spec_concatenation :
    ∀ (method path : Str) (headers : List (Str × Str)) (body : Str),
      buildRequest method path headers body = specSerialisation method path headers body := by
  intro m p hs b
  simp [buildRequest, specSerialisation, List.append_assoc]

/-! ## C7 — the baseline client's coordinates -/

/-- C7 (code bug).  On a URL with an explicit non-default port the probe
client honours the port from the netloc while the baseline client of
`test_cl_te` / `test_te_cl` computes its port (and TLS flag) from the scheme
prefix alone: for `http://example.com:8080/` the probes go to port 8080 but
the baseline GET goes to port 80.  Host and TLS mode do agree. -/
theorem c7_baseline_port_mismatch :
    (probeTarget (S "http://example.com:8080/")).port = 8080
    ∧ (baselineTarget (S "http://example.com:8080/")).port = 80
    ∧ (probeTarget (S "http://example.com:8080/")).host
        = (baselineTarget (S "http://example.com:8080/")).host
    ∧ (probeTarget (S "http://example.com:8080/")).tls
        = (baselineTarget (S "http://example.com:8080/")).tls := by
  refine ⟨by decide, by decide, by decide, by decide⟩

/-! ## C1 — findings are not gated on the confirmation -/

/-- C1 (counterexample).  A mutation whose probe times out and whose
confirmation also times out still produces a finding: the loop condition is
`result['timed_out'] or result.get('vulnerable')`, and `timed_out` alone is
true.  The claim says the returned list contains no finding for it. -/
theorem c1_counterexample_finding_despite_confirm_timeout :
    (detectorScan (α := Nat) false [(0, .timedOut 5, .timedOut 5)]).1 = [0]
    ∧ (testClTeWithHeader (.timedOut 5) (.timedOut 5)).confirmTimedOut = some true
    ∧ (testClTeWithHeader (.timedOut 5) (.timedOut 5)).vulnerable = false
    ∧ (testTeClWithHeader (.timedOut 5) (.timedOut 5)).confirmTimedOut = some true := by
  refine ⟨rfl, rfl, rfl, rfl⟩

/-- C1 (amended).  The CL.TE and TE.CL engines emit a finding for exactly
the mutations whose probe timed out, regardless of the confirmation's
outcome; the confirmation only sets the `vulnerable` flag.  (The two
per-header test functions share their control flow.) -/
theorem c1_amended_finding_iff_probe_timeout :
    (∀ (l : List (Nat × ProbeOutcome × ProbeOutcome)),
      (detectorScan false l).1 = (l.filter (fun t => t.2.1.isTimeout)).map Prod.fst)
    ∧ (∀ p c, findingEmitted (testClTeWithHeader p c) = p.isTimeout)
    ∧ (∀ p c, findingEmitted (testTeClWithHeader p c) = p.isTimeout)
    ∧ (∀ p c, (testClTeWithHeader p c).vulnerable = (p.isTimeout && !c.isTimeout
        && (match c with | .failed => false | _ => true))) := by
  refine ⟨?_, findingEmitted_testClTe, findingEmitted_testClTe, ?_⟩
  · intro l
    induction l with
    | nil => rfl
    | cons h t ih =>
      obtain ⟨m, p, c⟩ := h
      by_cases hp : p.isTimeout = true
      · simp [detectorScan, findingEmitted_testClTe, hp, List.filter_cons, ih]
      · simp only [Bool.not_eq_true] at hp
        simp [detectorScan, findingEmitted_testClTe, hp, List.filter_cons, ih]
  · intro p c
    cases p <;> cases c <;> rfl

/-! ## C2 — confirmation is only triggered by a timeout -/

/-- C2 (counterexample).  A probe that completes with status 400 in ten
times the baseline satisfies both of the claim's confirmation conditions
(`status ∈ {400, 408, 500} ∧ t ≥ 1.5·t_base` and `t ≥ 3·t_base`), yet the
HTTP/1 engines attempt no confirmation and emit no finding for it. -/
theorem c2_counterexample_no_confirm_for_completed_probe :
    (400 ∈ [400, 408, 500]) ∧ ((10 : ℚ) ≥ 3 / 2 * 1) ∧ ((10 : ℚ) ≥ 3 * 1)
    ∧ (testClTeWithHeader (.completed 400 10) (.completed 200 1)).confirmAttempted = false
    ∧ findingEmitted (testClTeWithHeader (.completed 400 10) (.completed 200 1)) = false
    ∧ (testTeClWithHeader (.completed 400 10) (.completed 200 1)).confirmAttempted = false
    ∧ findingEmitted (testTeClWithHeader (.completed 400 10) (.completed 200 1)) = false := by
  refine ⟨by decide, by norm_num, by norm_num, rfl, rfl, rfl, rfl⟩

/-- C2 (amended).  The CL.TE and TE.CL engines run the confirmation request
exactly when the probe raised a timeout; a probe that completes — whatever
its status code or elapsed time — never triggers a confirmation and never
leads to a finding. -/
theorem c2_amended_confirm_iff_probe_timeout :
    (∀ p c, (testClTeWithHeader p c).confirmAttempted = p.isTimeout)
    ∧ (∀ p c, (testTeClWithHeader p c).confirmAttempted = p.isTimeout)
    ∧ (∀ status t c, findingEmitted (testClTeWithHeader (.completed status t) c) = false)
    ∧ (∀ status t c, findingEmitted (testTeClWithHeader (.completed status t) c) = false) := by
  refine ⟨confirmAttempted_testClTe, confirmAttempted_testClTe, ?_, ?_⟩ <;>
    · intro status t c
      cases c <;> rfl

/-! ## C9 — exit-first stops after the first finding -/

/-- C9 (confirmed).  With `exit_first` set and a catalogue whose first two
mutations would both trigger findings, both the HTTP/1 engines' loop and
the H2.TE loop emit the first finding and probe nothing further: exactly one
mutation is probed, and the findings list is just the first mutation. -/
theorem c9_exit_first_stops_after_first_finding :
    ∀ {α : Type} (m1 m2 : α) (rest : List (α × ProbeOutcome × ProbeOutcome))
      (p1 c1 p2 c2 : ProbeOutcome)
      (hm1 hm2 : H2Mutation) (hrest : List (H2Mutation × Option Nat × ℚ))
      (bl t1 t2 : ℚ) (s1 s2 : Option Nat),
      findingEmitted (testClTeWithHeader p1 c1) = true →
      findingEmitted (testClTeWithHeader p2 c2) = true →
      h2IsVulnerable bl s1 t1 = true →
      h2IsVulnerable bl s2 t2 = true →
      detectorScan true ((m1, p1, c1) :: (m2, p2, c2) :: rest) = ([m1], 1)
      ∧ h2Scan true bl ((hm1, s1, t1) :: (hm2, s2, t2) :: hrest) = ([hm1], 1) := by
  intro α m1 m2 rest p1 c1 p2 c2 hm1 hm2 hrest bl t1 t2 s1 s2 h1 _ h3 _
  exact ⟨by simp [detectorScan, h1], by simp [h2Scan, h3]⟩

/-- Witness for C9 at concrete inputs: two timing-out CL.TE probes and two
H2 probes at ten times a baseline of 1. -/
theorem c9_witness :
    detectorScan true [((0 : Nat), .timedOut 5, .completed 200 1),
      (1, .timedOut 5, .completed 200 1)] = ([0], 1)
    ∧ h2Scan true 1
        [({ description := "a", headerName := S "x", headerValue := S "y",
            mtype := "normal_header" }, none, 10),
         ({ description := "b", headerName := S "x", headerValue := S "y",
            mtype := "normal_header" }, none, 10)] =
      ([{ description := "a", headerName := S "x", headerValue := S "y",
          mtype := "normal_header" }], 1) :=
  c9_exit_first_stops_after_first_finding 0 1 [] (.timedOut 5) (.completed 200 1)
    (.timedOut 5) (.completed 200 1)
    { description := "a", headerName := S "x", headerValue := S "y", mtype := "normal_header" }
    { description := "b", headerName := S "x", headerValue := S "y", mtype := "normal_header" }
    [] 1 10 10 none none (by decide) (by decide)
    (by norm_num [h2IsVulnerable]) (by norm_num [h2IsVulnerable])

/-! ## C3 — the H2.TE mutation header is dropped when no filter is given -/

/-- C3 (code bug).  `test_h2_te_vulnerability` branches on the
`payload_placement` argument instead of the mutation's own `type` (the local
`mutation_type` is assigned and never used).  With no placement filter every
catalogue mutation is iterated, every branch comparison is `None == "..."`,
and the probe's header list is just the base request headers: no mutation's
`(header_name, header_value)` pair — not even `transfer-encoding: chunked` —
ever reaches the emitted HTTP/2 request. -/
theorem c3_mutation_header_dropped_without_filter :
    (∀ m : H2Mutation, buildH2TestHeaders none h2BaseRequestHeaders m = h2BaseRequestHeaders)
    ∧ filteredMutations none = h2TeMutations
    ∧ (h2TeMutations.map (fun m =>
        (buildMalformedHeaders (S "POST") (S "/") (S "example.com") 443 true []
          (buildH2TestHeaders none h2BaseRequestHeaders m)).contains
          (m.headerName, m.headerValue))) = [false, false, false, false]
    ∧ (buildH2TestHeaders (some "normal_header") h2BaseRequestHeaders
        { description := "Standard Transfer-Encoding header",
          headerName := S "transfer-encoding", headerValue := S "chunked",
          mtype := "normal_header" }) =
      h2BaseRequestHeaders ++ [(S "transfer-encoding", S "chunked")] := by
  refine ⟨fun m => rfl, rfl, by decide, rfl⟩

/-! ## C10 — pseudo-header replacement in `send_malformed_headers` -/

/-- Shifting a capital-letter code point down by case never lands on `:`. -/
theorem ofNat_add32_ne_colon (n : Nat) (h1 : 65 ≤ n) (h2 : n ≤ 90) :
    Char.ofNat (n + 32) ≠ ':' := by
  interval_cases n <;> decide

/-- `Char.toLower` maps no character other than `:` to `:` (it only moves
basic latin capitals into `a`–`z`). -/
theorem toLower_eq_colon_iff (c : Char) : c.toLower = ':' ↔ c = ':' := by
  constructor
  · intro h
    have hdef : c.toLower
        = (if c.toNat ≥ 65 ∧ c.toNat ≤ 90 then Char.ofNat (c.toNat + 32) else c) := rfl
    rw [hdef] at h
    by_cases hc : c.toNat ≥ 65 ∧ c.toNat ≤ 90
    · rw [if_pos hc] at h
      exact absurd h (ofNat_add32_ne_colon c.toNat hc.1 hc.2)
    · rwa [if_neg hc] at h
  · intro h
    subst h
    decide

/-- Lowercasing a header name does not create or destroy a leading colon. -/
theorem startsColon_lowerStr (l : Str) : startsColon (lowerStr l) = startsColon l := by
  cases l with
  | nil => rfl
  | cons c t =>
    show (c.toLower == ':') = (c == ':')
    by_cases h : c = ':'
    · subst h; decide
    · have h2 : c.toLower ≠ ':' := fun hh => h ((toLower_eq_colon_iff c).mp hh)
      simp [h, h2]

/-- `replaceFirst` keeps the name sequence intact when the name is present. -/
theorem replaceFirst_map_fst_of_mem (n v : Str) :
    ∀ acc : List (Str × Str), n ∈ acc.map Prod.fst →
      (replaceFirst acc n v).map Prod.fst = acc.map Prod.fst := by
  intro acc
  induction acc with
  | nil => intro h; simp at h
  | cons p rest ih =>
    intro h
    obtain ⟨hn, hv⟩ := p
    by_cases he : hn = n
    · subst he; simp [replaceFirst]
    · have hne : ¬(hn = n) := he
      simp only [List.map_cons, List.mem_cons] at h
      rcases h with h | h
      · exact absurd h.symm hne
      · simp [replaceFirst, hne, ih h]

/-- `replaceFirst` appends when the name is absent. -/
theorem replaceFirst_of_not_mem (n v : Str) :
    ∀ acc : List (Str × Str), n ∉ acc.map Prod.fst →
      replaceFirst acc n v = acc ++ [(n, v)] := by
  intro acc
  induction acc with
  | nil => intro _; rfl
  | cons p rest ih =>
    intro h
    obtain ⟨hn, hv⟩ := p
    simp only [List.map_cons, List.mem_cons, not_or] at h
    obtain ⟨h1, h2⟩ := h
    have hne : ¬(hn = n) := fun he => h1 he.symm
    simp [replaceFirst, hne, ih h2]

/-- First index of a header name, as scanned by lines 569–575. -/
def firstIdx (acc : List (Str × Str)) (n : Str) : Option Nat :=
  match acc with
  | [] => none
  | (hn, _) :: rest => if hn = n then some 0 else (firstIdx rest n).map (· + 1)

/-- `replaceFirst` is an in-place update at the first occurrence. -/
theorem replaceFirst_eq_set (n v : Str) :
    ∀ (acc : List (Str × Str)) (i : Nat), firstIdx acc n = some i →
      replaceFirst acc n v = acc.set i (n, v) := by
  intro acc
  induction acc with
  | nil => intro i h; simp [firstIdx] at h
  | cons p rest ih =>
    intro i h
    obtain ⟨hn, hv⟩ := p
    by_cases he : hn = n
    · have h0 : firstIdx ((hn, hv) :: rest) n = some 0 := by simp [firstIdx, he]
      rw [h0] at h
      obtain rfl : (0 : Nat) = i := Option.some.inj h
      subst he
      simp [replaceFirst]
    · have h1 : firstIdx ((hn, hv) :: rest) n = (firstIdx rest n).map (· + 1) := by
        simp [firstIdx, he]
      rw [h1] at h
      cases hfi : firstIdx rest n with
      | none => rw [hfi] at h; simp at h
      | some j =>
        rw [hfi, Option.map_some'] at h
        obtain rfl : j + 1 = i := Option.some.inj h
        simp [replaceFirst, he, ih j hfi, List.set]

/-- Every `addHeader` step only extends the name sequence at the end. -/
theorem addHeader_map_fst (acc : List (Str × Str)) (nv : Str × Str) :
    ∃ t, (addHeader acc nv).map Prod.fst = acc.map Prod.fst ++ t := by
  obtain ⟨n, v⟩ := nv
  by_cases hc : startsColon n = true
  · by_cases hm : n ∈ acc.map Prod.fst
    · exact ⟨[], by simp [addHeader, hc, replaceFirst_map_fst_of_mem n v acc hm]⟩
    · exact ⟨[n], by simp [addHeader, hc, replaceFirst_of_not_mem n v acc hm]⟩
  · exact ⟨[lowerStr n], by simp [addHeader, hc]⟩

/-- The whole `headers` fold only extends the name sequence at the end. -/
theorem foldl_addHeader_map_fst (hs : List (Str × Str)) :
    ∀ acc, ∃ t, ((hs.foldl addHeader acc).map Prod.fst) = acc.map Prod.fst ++ t := by
  induction hs with
  | nil => intro acc; exact ⟨[], by simp⟩
  | cons h rest ih =>
    intro acc
    obtain ⟨t1, ht1⟩ := addHeader_map_fst acc h
    obtain ⟨t2, ht2⟩ := ih (addHeader acc h)
    exact ⟨t1 ++ t2, by simp [List.foldl_cons, ht2, ht1]⟩

/-- One `addHeader` step never pushes the multiplicity of a pseudo-header
name beyond `max previous 1`. -/
theorem count_addHeader (acc : List (Str × Str)) (nv : Str × Str) (m : Str)
    (hm : startsColon m = true) :
    ((addHeader acc nv).map Prod.fst).count m ≤ max ((acc.map Prod.fst).count m) 1 := by
  obtain ⟨n, v⟩ := nv
  by_cases hc : startsColon n = true
  · by_cases hmem : n ∈ acc.map Prod.fst
    · simp [addHeader, hc, replaceFirst_map_fst_of_mem n v acc hmem, le_max_left]
    · by_cases hnm : n = m
      · subst hnm
        have h0 : (acc.map Prod.fst).count n = 0 := List.count_eq_zero.mpr hmem
        simp [addHeader, hc, replaceFirst_of_not_mem n v acc hmem, h0]
      · simp [addHeader, hc, replaceFirst_of_not_mem n v acc hmem,
          List.count_append, List.count_singleton, hnm, le_max_left,
          Ne.symm hnm]
  · have hne : lowerStr n ≠ m := by
      intro he
      rw [← he, startsColon_lowerStr] at hm
      simp [hm] at hc
    have hne' : m ≠ lowerStr n := fun he => hne he.symm
    simp [addHeader, hc, List.count_append, List.count_singleton, hne, hne', le_max_left]

/-- Pseudo-name multiplicity bound for the whole fold. -/
theorem count_foldl_addHeader (hs : List (Str × Str)) (m : Str)
    (hm : startsColon m = true) :
    ∀ acc, ((hs.foldl addHeader acc).map Prod.fst).count m
      ≤ max ((acc.map Prod.fst).count m) 1 := by
  induction hs with
  | nil => intro acc; simp [le_max_left]
  | cons h rest ih =>
    intro acc
    calc ((( h :: rest).foldl addHeader acc).map Prod.fst).count m
        = (((rest).foldl addHeader (addHeader acc h)).map Prod.fst).count m := by
          simp [List.foldl_cons]
      _ ≤ max (((addHeader acc h).map Prod.fst).count m) 1 := ih (addHeader acc h)
      _ ≤ max (max ((acc.map Prod.fst).count m) 1) 1 :=
          max_le_max_right 1 (count_addHeader acc h m hm)
      _ = max ((acc.map Prod.fst).count m) 1 := by rw [max_assoc, max_self]

/-- C10 (confirmed).  In `send_malformed_headers`: (1) with no regular
headers the emitted list is exactly the four default pseudo-headers followed
by the caller's `pseudo_headers`, verbatim and in order; (2) processing the
regular `headers` never disturbs the names or positions of that leading
block — a `:`‑named entry replaces the first existing header of that name in
place (`List.set` at its `firstIdx`), so (3) such an entry never appends a
duplicate, and (4) a pseudo-header name can occur twice in the output only
if it already occurs twice in defaults ++ pseudo_headers — i.e. duplicates
come only from the `pseudo_headers` argument. -/
theorem c10_pseudo_header_replacement :
    ∀ (method path host : Str) (port : Nat) (tls : Bool)
      (ps hs : List (Str × Str)),
      buildMalformedHeaders method path host port tls ps []
          = defaultPseudos method path host port tls ++ ps
      ∧ ((buildMalformedHeaders method path host port tls ps hs).map Prod.fst).take
            (defaultPseudos method path host port tls ++ ps).length
          = (defaultPseudos method path host port tls ++ ps).map Prod.fst
      ∧ (∀ (acc : List (Str × Str)) (n v : Str) (i : Nat),
          startsColon n = true → firstIdx acc n = some i →
            addHeader acc (n, v) = acc.set i (n, v))
      ∧ (∀ (acc : List (Str × Str)) (n v : Str),
          startsColon n = true → n ∈ acc.map Prod.fst →
            (addHeader acc (n, v)).map Prod.fst = acc.map Prod.fst)
      ∧ (∀ n : Str, startsColon n = true →
          ((buildMalformedHeaders method path host port tls ps hs).map Prod.fst).count n
            ≤ max (((defaultPseudos method path host port tls ++ ps).map Prod.fst).count n) 1) := by
  intro method path host port tls ps hs
  refine ⟨rfl, ?_, ?_, ?_, ?_⟩
  · obtain ⟨t, ht⟩ := foldl_addHeader_map_fst hs (defaultPseudos method path host port tls ++ ps)
    rw [buildMalformedHeaders, ht]
    rw [List.take_append_of_le_length (by simp), List.take_of_length_le (by simp)]
  · intro acc n v i hc hi
    simp [addHeader, hc, replaceFirst_eq_set n v acc i hi]
  · intro acc n v hc hmem
    simp [addHeader, hc, replaceFirst_map_fst_of_mem n v acc hmem]
  · intro n hn
    exact count_foldl_addHeader hs n hn _

/-- Witness for C10 at concrete inputs: duplicate `:method` supplied via
`pseudo_headers`, a `:path` entry of `headers` replacing in place, a regular
header appended lowercased. -/
theorem c10_witness :
    buildMalformedHeaders (S "GET") (S "/") (S "h") 443 true
        [(S ":method", S "POST")] [] =
      defaultPseudos (S "GET") (S "/") (S "h") 443 true ++ [(S ":method", S "POST")]
    ∧ addHeader (defaultPseudos (S "GET") (S "/") (S "h") 443 true) (S ":path", S "/x")
        = (defaultPseudos (S "GET") (S "/") (S "h") 443 true).set 1 (S ":path", S "/x")
    ∧ ((buildMalformedHeaders (S "GET") (S "/") (S "h") 443 true
          [(S ":method", S "POST")]
          [(S ":method", S "PUT"), (S "X-C", S "v")]).map Prod.fst).count (S ":method")
        ≤ max (((defaultPseudos (S "GET") (S "/") (S "h") 443 true
            ++ [(S ":method", S "POST")]).map Prod.fst).count (S ":method")) 1 := by
  have h := c10_pseudo_header_replacement (S "GET") (S "/") (S "h") 443 true
    [(S ":method", S "POST")] [(S ":method", S "PUT"), (S "X-C", S "v")]
  exact ⟨(c10_pseudo_header_replacement (S "GET") (S "/") (S "h") 443 true
      [(S ":method", S "POST")] []).1,
    h.2.2.1 (defaultPseudos (S "GET") (S "/") (S "h") 443 true) (S ":path") (S "/x") 1
      (by decide) (by decide),
    h.2.2.2.2 (S ":method") (by decide)⟩

/-! ## C5 — the HTTP/2 read phase never surfaces a timeout -/

/-- An event is a `ResponseReceived` (for any stream). -/
def isResponseEvent : H2Event → Bool
  | .responseReceived _ _ => true
  | _ => false

/-- Events accumulated by the pump all come from the stream state it started
with or from the script, and carry the pumped stream's id. -/
theorem mem_events_processIncomingData (sid : Nat) :
    ∀ (script : ReadScript) (st : H2StreamState) (e : H2Event),
      e ∈ (processIncomingData sid script st).1.events →
      e ∈ st.events ∨ (e ∈ scriptEvents script ∧ e.streamId = some sid) := by
  intro script
  induction script with
  | nil => intro st e h; exact Or.inl h
  | cons r rest ih =>
    intro st e h
    cases r with
    | timeout => exact Or.inl h
    | connClosed => exact Or.inl h
    | connError => exact Or.inl h
    | dataRead evts =>
      have hrec : ∀ e, e ∈ (recordEvents sid evts st).events →
          e ∈ st.events ∨ (e ∈ evts ∧ e.streamId = some sid) := by
        intro e' he'
        simp only [recordEvents, List.mem_append] at he'
        rcases he' with he' | he'
        · exact Or.inl he'
        · have := List.of_mem_filter he'
          exact Or.inr ⟨List.mem_of_mem_filter he', by simpa using this⟩
      have hscript : ∀ e, e ∈ evts →
          e ∈ scriptEvents (ReadOutcome.dataRead evts :: rest) := by
        intro e' he'
        simp [scriptEvents, List.filterMap_cons, he']
      simp only [processIncomingData] at h
      by_cases he : (recordEvents sid evts st).ended = true
      · rw [if_pos he] at h
        rcases hrec e h with h' | ⟨h1, h2⟩
        · exact Or.inl h'
        · exact Or.inr ⟨hscript e h1, h2⟩
      · rw [if_neg he] at h
        simp only at h
        rcases ih (recordEvents sid evts st) e h with h' | ⟨h1, h2⟩
        · rcases hrec e h' with h'' | ⟨h1, h2⟩
          · exact Or.inl h''
          · exact Or.inr ⟨hscript e h1, h2⟩
        · refine Or.inr ⟨?_, h2⟩
          simp [scriptEvents, List.filterMap_cons]
          right
          simpa [scriptEvents] using h1

/-- The unconsumed remainder of the script delivers no event the script
itself could not deliver. -/
theorem scriptEvents_rem_processIncomingData (sid : Nat) :
    ∀ (script : ReadScript) (st : H2StreamState) (e : H2Event),
      e ∈ scriptEvents (processIncomingData sid script st).2.2 →
      e ∈ scriptEvents script := by
  intro script
  induction script with
  | nil => intro st e h; simpa [processIncomingData] using h
  | cons r rest ih =>
    intro st e h
    have hcons : ∀ e, e ∈ scriptEvents rest → e ∈ scriptEvents (r :: rest) := by
      intro e' he'
      cases r <;> simp [scriptEvents, List.filterMap_cons] at he' ⊢ <;>
        simp [he']
    cases r with
    | timeout => exact hcons e h
    | connClosed => exact hcons e h
    | connError => exact hcons e h
    | dataRead evts =>
      simp only [processIncomingData] at h
      by_cases he : (recordEvents sid evts st).ended = true
      · rw [if_pos he] at h
        exact hcons e h
      · rw [if_neg he] at h
        simp only at h
        exact hcons e (ih (recordEvents sid evts st) e h)

/-- Walking an event list with no `ResponseReceived` leaves status and
headers untouched (and never raises). -/
theorem parseH2Events_no_response (evts : List H2Event)
    (h : ∀ e ∈ evts, isResponseEvent e = false) :
    ∀ status hdrs, parseH2Events evts status hdrs = .ok (status, hdrs) := by
  induction evts with
  | nil => intro status hdrs; rfl
  | cons e rest ih =>
    intro status hdrs
    have hrest : ∀ e ∈ rest, isResponseEvent e = false := fun e' he' =>
      h e' (List.mem_cons_of_mem _ he')
    cases e with
    | responseReceived sid hs =>
      have := h _ (List.mem_cons_self _ _)
      simp [isResponseEvent] at this
    | dataReceived sid d => exact ih hrest status hdrs
    | streamEnded sid => exact ih hrest status hdrs
    | streamReset sid => exact ih hrest status hdrs
    | connLevel => exact ih hrest status hdrs

/-- Accumulated events of the retry loop of `send_request`, same bound as
for a single pump. -/
theorem mem_events_sendRequestAttempts (sid : Nat) :
    ∀ (k : Nat) (script : ReadScript) (st : H2StreamState) (e : H2Event),
      e ∈ (sendRequestAttempts sid k script st).events →
      e ∈ st.events ∨ (e ∈ scriptEvents script ∧ e.streamId = some sid) := by
  intro k
  induction k with
  | zero => intro script st e h; exact Or.inl h
  | succ k ih =>
    intro script st e h
    simp only [sendRequestAttempts] at h
    by_cases hr : ((processIncomingData sid script st).2.1).any (isResponseFor sid) = true
    · rw [if_pos hr] at h
      exact mem_events_processIncomingData sid script st e h
    · rw [if_neg hr] at h
      rcases ih _ _ e h with h' | ⟨h1, h2⟩
      · exact mem_events_processIncomingData sid script st e h'
      · exact Or.inr ⟨scriptEvents_rem_processIncomingData sid script st e h1, h2⟩

/-- C5 (confirmed).  Once connected, the read phases of `send_request` and
`send_malformed_headers` are total functions of what the peer delivers:
every timed-out, closed or failing read is caught inside
`_process_incoming_data` (and the retry loop of `send_request`), so no
timeout is ever raised to the caller.  If no `ResponseReceived` for the
stream ever arrives — in particular when every read times out — the call
returns a `response_info` with `status_code = None` and `headers = []`,
together with whatever DATA bytes were accumulated. -/
theorem c5_h2_read_phase_swallows_timeouts :
    ∀ (sid : Nat) (script : ReadScript),
      ((scriptEvents script).all fun e => !isResponseFor sid e) = true →
      (∃ d, sendMalformedHeadersResponse sid script = .ok
        { statusCode := none, headers := [], body := d })
      ∧ (∃ d, sendRequestResponse sid script = .ok
        { statusCode := none, headers := [], body := d }) := by
  intro sid script hno
  rw [List.all_eq_true] at hno
  have hfilter : ∀ (st : H2StreamState),
      (∀ e ∈ st.events, e ∈ scriptEvents script ∧ e.streamId = some sid) →
      ∀ e ∈ st.events, isResponseEvent e = false := by
    intro st hst e he
    obtain ⟨hs, hid⟩ := hst e he
    have := hno e hs
    cases e with
    | responseReceived s hs' =>
      have hsid : s = sid := by simpa [H2Event.streamId] using hid
      subst hsid
      simp [isResponseFor] at this
    | dataReceived s d => rfl
    | streamEnded s => rfl
    | streamReset s => rfl
    | connLevel => rfl
  have hmk : ∀ st : H2StreamState,
      (∀ e ∈ st.events, isResponseEvent e = false) →
      mkH2Response st = .ok { statusCode := none, headers := [], body := st.data } := by
    intro st h
    unfold mkH2Response
    rw [parseH2Events_no_response _ h none []]
  constructor
  · refine ⟨(processIncomingData sid script H2StreamState.init).1.data, ?_⟩
    have hin : ∀ e ∈ (processIncomingData sid script H2StreamState.init).1.events,
        e ∈ scriptEvents script ∧ e.streamId = some sid := by
      intro e he
      rcases mem_events_processIncomingData sid script H2StreamState.init e he with h | h
      · simp [H2StreamState.init] at h
      · exact h
    exact hmk _ (hfilter _ hin)
  · refine ⟨(sendRequestAttempts sid 3 script H2StreamState.init).data, ?_⟩
    have hin : ∀ e ∈ (sendRequestAttempts sid 3 script H2StreamState.init).events,
        e ∈ scriptEvents script ∧ e.streamId = some sid := by
      intro e he
      rcases mem_events_sendRequestAttempts sid 3 script H2StreamState.init e he with h | h
      · simp [H2StreamState.init] at h
      · exact h
    exact hmk _ (hfilter _ hin)

/-- Witness for C5: the peer sends two data frames carrying body bytes, then
every further read times out; both calls return normally with
`status_code = None`, empty headers, and the accumulated body. -/
theorem c5_witness :
    (∃ d, sendMalformedHeadersResponse 1
        [.dataRead [.dataReceived 1 (S "ab"), .connLevel],
         .dataRead [.dataReceived 1 (S "cd")], .timeout, .connError] = .ok
      { statusCode := none, headers := [], body := d })
    ∧ (∃ d, sendRequestResponse 1
        [.dataRead [.dataReceived 1 (S "ab"), .connLevel],
         .dataRead [.dataReceived 1 (S "cd")], .timeout, .connError] = .ok
      { statusCode := none, headers := [], body := d }) :=
  c5_h2_read_phase_swallows_timeouts 1
    [.dataRead [.dataReceived 1 (S "ab"), .connLevel],
     .dataRead [.dataReceived 1 (S "cd")], .timeout, .connError] (by decide)

/-! ## C8 — content-length framing -/

/-- The pair is a `content-length` header (the first guard of the scan). -/
def isCLPair (nv : Str × Str) : Bool := lowerStr nv.1 == S "content-length"

/-- The pair is a chunked `transfer-encoding` header (the second guard). -/
def isChunkedTEPair (nv : Str × Str) : Bool :=
  (lowerStr nv.1 == S "transfer-encoding") && containsSub (S "chunked") (lowerStr nv.2)

/-- A header that is neither guard leaves the scan state alone. -/
theorem framingStep_skip (st : Option Int × Bool) (nv : Str × Str)
    (hcl : isCLPair nv = false) (hte : isChunkedTEPair nv = false) :
    framingStep st nv = st := by
  obtain ⟨cl, ch⟩ := st
  have h1 : ¬(lowerStr nv.1 = S "content-length") := by
    intro h
    simp [isCLPair, h] at hcl
  unfold framingStep
  rw [if_neg h1]
  by_cases h2 : lowerStr nv.1 = S "transfer-encoding"
  · have h3 : containsSub (S "chunked") (lowerStr nv.2) = false := by
      by_contra hh
      simp only [Bool.not_eq_false] at hh
      simp [isChunkedTEPair, h2, hh] at hte
    simp [h2, h3]
  · simp [h2]

/-- A scan over headers that are neither guard is the identity. -/
theorem foldl_framingStep_skip (hs : List (Str × Str)) :
    ∀ st, (∀ nv ∈ hs, isCLPair nv = false ∧ isChunkedTEPair nv = false) →
      hs.foldl framingStep st = st := by
  induction hs with
  | nil => intro st _; rfl
  | cons nv rest ih =>
    intro st h
    obtain ⟨hcl, hte⟩ := h nv (List.mem_cons_self _ _)
    rw [List.foldl_cons, framingStep_skip st nv hcl hte]
    exact ih st fun x hx => h x (List.mem_cons_of_mem _ hx)

/-- With exactly one `content-length` header of value `v` and no chunked
`transfer-encoding` header, the scan returns `int(v)` if it parses and the
initial state otherwise, with the chunked flag untouched. -/
theorem foldl_framingStep_single_cl (hs : List (Str × Str)) (v : Str) :
    ∀ (a : Option Int) (b : Bool),
      (∀ nv ∈ hs, isChunkedTEPair nv = false) →
      (hs.filter isCLPair).map Prod.snd = [v] →
      hs.foldl framingStep (a, b) =
        (match pyInt false v with
          | some k => some k
          | none => a, b) := by
  induction hs with
  | nil => intro a b _ hv; simp at hv
  | cons nv rest ih =>
    intro a b hte hv
    cases hcl : isCLPair nv with
    | true =>
      rw [List.filter_cons_of_pos hcl] at hv
      simp only [List.map_cons, List.cons.injEq] at hv
      obtain ⟨hv1, hv2⟩ := hv
      have hrest : ∀ x ∈ rest, isCLPair x = false ∧ isChunkedTEPair x = false := by
        intro x hx
        refine ⟨?_, hte x (List.mem_cons_of_mem _ hx)⟩
        have := List.map_eq_nil_iff.mp hv2
        by_contra hcx
        simp only [Bool.not_eq_false] at hcx
        have : x ∈ rest.filter isCLPair := List.mem_filter.mpr ⟨hx, hcx⟩
        rw [List.map_eq_nil_iff.mp hv2] at this
        simp at this
      have hname : lowerStr nv.1 = S "content-length" := by
        simpa [isCLPair] using hcl
      rw [List.foldl_cons]
      have hstep : framingStep (a, b) nv =
          (match pyInt false v with
            | some k => some k
            | none => a, b) := by
        unfold framingStep
        rw [if_pos hname, ← hv1]
        cases pyInt false nv.2 <;> rfl
      rw [hstep, foldl_framingStep_skip rest _ hrest]
    | false =>
      rw [List.filter_cons_of_neg (by simp [hcl])] at hv
      have hnte := hte nv (List.mem_cons_self _ _)
      rw [List.foldl_cons, framingStep_skip (a, b) nv hcl hnte]
      exact ih a b (fun x hx => hte x (List.mem_cons_of_mem _ hx)) hv

/-- C8 (counterexample).  `Content-Length: -5` is not a non-negative
integer, yet Python `int("-5")` parses it, so the reader takes the
content-length path instead of falling back to read-until-close — and then
`readexactly(-5)` raises a `ValueError`. -/
theorem c8_counterexample_negative_content_length :
    decideFraming [(S "Content-Length", S "-5")] = .contentLength (-5)
    ∧ readContentLengthBody (-5) (S "abc") = .error () := by
  refine ⟨by decide, rfl⟩

/-- C8 (amended).  For a response whose headers carry no chunked
transfer-encoding and exactly one `content-length` of value `v`: if `int(v)`
parses to `n ≥ 0` the framing is content-length and exactly `n` bytes are
read (all of them when the peer delivers at least `n`); if `int(v)` parses
to a negative `n` the framing is still content-length and the body read
raises; only when `int(v)` fails to parse does the reader fall back to
read-until-close. -/
theorem c8_content_length_framing :
    ∀ (hs : List (Str × Str)) (v : Str) (n : Int) (stream : Str),
      (∀ nv ∈ hs, isChunkedTEPair nv = false) →
      (hs.filter isCLPair).map Prod.snd = [v] →
      (pyInt false v = some n → decideFraming hs = .contentLength n)
      ∧ (pyInt false v = some n → 0 ≤ n → n.toNat ≤ stream.length →
          readContentLengthBody n stream = .ok (stream.take n.toNat))
      ∧ (pyInt false v = some n → n < 0 → readContentLengthBody n stream = .error ())
      ∧ (pyInt false v = none → decideFraming hs = .untilClose) := by
  intro hs v n stream hte hv
  have hfold := foldl_framingStep_single_cl hs v none false hte hv
  refine ⟨?_, ?_, ?_, ?_⟩
  · intro hp
    rw [hp] at hfold
    simp [decideFraming, hfold]
  · intro _ hn hlen
    unfold readContentLengthBody
    by_cases h0 : n = 0
    · subst h0; simp
    · rw [if_neg h0, if_neg (by omega), if_pos hlen]
  · intro _ hn
    unfold readContentLengthBody
    rw [if_neg (by omega), if_pos hn]
  · intro hp
    rw [hp] at hfold
    simp [decideFraming, hfold]

/-- Witness for C8 at concrete inputs: a single `Content-Length: 5` header
and a six-byte stream. -/
theorem c8_witness :
    decideFraming [(S "Host", S "h"), (S "Content-Length", S "5")] = .contentLength 5
    ∧ readContentLengthBody 5 (S "abcdef") = .ok (S "abcde") := by
  have h := c8_content_length_framing [(S "Host", S "h"), (S "Content-Length", S "5")]
    (S "5") 5 (S "abcdef") (by decide) (by decide)
  refine ⟨h.1 (by decide), ?_⟩
  have h2 := h.2.1 (by decide) (by decide) (by decide)
  simpa using h2

/-! ## C6 — the chunked decoder on truncated and malformed bodies -/

/-- One well-formed chunk on the wire: size line, CRLF, data, CRLF. -/
def encodeChunk (hx d : Str) : Str := hx ++ S "\r\n" ++ d ++ S "\r\n"

/-- A sequence of well-formed chunks. -/
def encodeChunks (cs : List (Str × Str)) : Str :=
  (cs.map fun p => encodeChunk p.1 p.2).flatten

/-- `(hx, d)` is a chunk the decoder consumes whole: the size line parses to
the (positive) data length and contains no whitespace, `;` or CR. -/
def goodChunk (hx d : Str) : Bool :=
  (pyInt true hx == some (d.length : Int)) && !(d.length == 0) &&
    hx.all fun c => !isPyWs c && !(c == ';') && !(c == '\r')

/-- The stream's first frame is malformed in one of the claim's three ways:
no CRLF-terminated size line, a size line `int(_, 16)` rejects, or a
(positive) size with fewer data bytes available than announced. -/
def malformedTailB (t : Str) : Bool :=
  match splitAtCRLF t with
  | none => true
  | some (line, rest) =>
    match pyInt true (stripWs (line.takeWhile (· ≠ ';'))) with
    | none => true
    | some n => 0 < n && decide (rest.length < n.toNat)

/-- The stream's first size line parses to a negative number. -/
def negativeSizeTailB (t : Str) : Bool :=
  match splitAtCRLF t with
  | none => false
  | some (line, _) =>
    match pyInt true (stripWs (line.takeWhile (· ≠ ';'))) with
    | none => false
    | some n => n < 0

/-- `takeWhile` passes over a block it accepts entirely. -/
theorem takeWhile_append_of_all (p : Char → Bool) :
    ∀ (l r : Str), (∀ c ∈ l, p c = true) →
      (l ++ r).takeWhile p = l ++ r.takeWhile p := by
  intro l
  induction l with
  | nil => intro r _; rfl
  | cons c t ih =>
    intro r h
    have hc := h c (List.mem_cons_self _ _)
    simp only [List.cons_append, List.takeWhile_cons, hc, if_true]
    rw [ih r fun x hx => h x (List.mem_cons_of_mem _ hx)]

/-- `dropWhile` stops at once on a list it rejects entirely. -/
theorem dropWhile_eq_self_of_all (p : Char → Bool) :
    ∀ l : Str, (∀ c ∈ l, p c = false) → l.dropWhile p = l := by
  intro l h
  cases l with
  | nil => rfl
  | cons c t =>
    have hc := h c (List.mem_cons_self _ _)
    simp [List.dropWhile_cons, hc]

/-- `readuntil` finds the first CRLF: a CR-free block is passed over. -/
theorem splitAtCRLF_append :
    ∀ (l s : Str), '\r' ∉ l →
      splitAtCRLF (l ++ '\r' :: '\n' :: s) = some (l ++ ['\r', '\n'], s) := by
  intro l
  induction l with
  | nil =>
    intro s _
    simp [splitAtCRLF]
  | cons c t ih =>
    intro s h
    have hc : c ≠ '\r' := fun hcc => h (hcc ▸ List.mem_cons_self _ _)
    have ht : '\r' ∉ t := fun htt => h (List.mem_cons_of_mem _ htt)
    show splitAtCRLF (c :: (t ++ '\r' :: '\n' :: s)) = some (c :: (t ++ ['\r', '\n']), s)
    rw [splitAtCRLF]
    rw [if_neg (fun hand => hc hand.1)]
    rw [ih s ht]

/-- The size field extracted from a well-formed size line is the size line
itself: `split(b";")[0].strip()` on `hx ++ CRLF` gives back `hx`. -/
theorem sizeField_of_clean (hx : Str) (hne : hx ≠ [])
    (hclean : ∀ c ∈ hx, isPyWs c = false ∧ c ≠ ';' ∧ c ≠ '\r') :
    stripWs ((hx ++ ['\r', '\n']).takeWhile (· ≠ ';')) = hx := by
  have htake : (hx ++ ['\r', '\n']).takeWhile (fun c => decide ¬(c = ';')) = hx ++ ['\r', '\n'] := by
    rw [takeWhile_append_of_all _ hx _ (fun c hc => by simp [(hclean c hc).2.1])]
    simp
  show stripWs ((hx ++ ['\r', '\n']).takeWhile (fun c => decide ¬(c = ';'))) = hx
  rw [htake]
  unfold stripWs
  have hdrop1 : (hx ++ ['\r', '\n']).dropWhile isPyWs = hx ++ ['\r', '\n'] := by
    cases hx with
    | nil => exact absurd rfl hne
    | cons c t =>
      have hc := (hclean c (List.mem_cons_self _ _)).1
      simp [List.dropWhile_cons, hc]
  rw [hdrop1]
  have hrev : (hx ++ ['\r', '\n']).reverse = '\n' :: '\r' :: hx.reverse := by
    simp
  rw [hrev]
  have h1 : isPyWs '\n' = true := by decide
  have h2 : isPyWs '\r' = true := by decide
  simp only [List.dropWhile_cons, h1, h2, if_true]
  rw [dropWhile_eq_self_of_all isPyWs hx.reverse
    (fun c hc => (hclean c (List.mem_reverse.mp hc)).1)]
  simp

/-- `readexactly` on a stream that starts with exactly the wanted block. -/
theorem readExactly_exact (l r : Str) : readExactly l.length (l ++ r) = some (l, r) := by
  unfold readExactly
  rw [if_pos (by simp)]
  rw [List.take_left, List.drop_left]

/-- `pyInt` rejects the empty string. -/
theorem pyInt_nil (b : Bool) : pyInt b [] = none := by cases b <;> rfl

/-- Consuming one well-formed chunk costs one unit of fuel and appends the
chunk's data to the accumulator. -/
theorem readChunkedCore_chunk (hx d s acc : Str) (fuel : Nat)
    (hgood : goodChunk hx d = true) :
    readChunkedCore (fuel + 1) (encodeChunk hx d ++ s) acc
      = readChunkedCore fuel s (acc ++ d) := by
  simp only [goodChunk, Bool.and_eq_true, beq_iff_eq, Bool.not_eq_true',
    List.all_eq_true, beq_eq_false_iff_ne, ne_eq] at hgood
  obtain ⟨⟨hparse, hdne⟩, hclean⟩ := hgood
  have hclean' : ∀ c ∈ hx, isPyWs c = false ∧ c ≠ ';' ∧ c ≠ '\r' := by
    intro c hc
    have := hclean c hc
    simp only [Bool.and_eq_true, Bool.not_eq_true'] at this
    exact ⟨this.1.1, by simpa using this.1.2, by simpa using this.2⟩
  have hxne : hx ≠ [] := by
    intro h
    rw [h, pyInt_nil] at hparse
    exact Option.noConfusion hparse
  have hnoCR : '\r' ∉ hx := fun hin => (hclean' _ hin).2.2 rfl
  have hshape : encodeChunk hx d ++ s = hx ++ '\r' :: '\n' :: (d ++ '\r' :: '\n' :: s) := by
    simp [encodeChunk, S, List.append_assoc]
  have hsplit : splitAtCRLF (encodeChunk hx d ++ s)
      = some (hx ++ ['\r', '\n'], d ++ '\r' :: '\n' :: s) := by
    rw [hshape]
    exact splitAtCRLF_append hx _ hnoCR
  show readChunkedCore (Nat.succ fuel) (encodeChunk hx d ++ s) acc
      = readChunkedCore fuel s (acc ++ d)
  rw [readChunkedCore, hsplit]
  simp only
  rw [sizeField_of_clean hx hxne hclean', hparse]
  simp only
  rw [if_neg (by simpa using hdne), if_neg (by simp)]
  have htoNat : ((d.length : Int)).toNat = d.length := by simp
  rw [htoNat, readExactly_exact d ('\r' :: '\n' :: s)]
  simp only
  have h2 : readExactly 2 ('\r' :: '\n' :: s) = some (['\r', '\n'], s) := by
    unfold readExactly
    rw [if_pos (by simp)]
    rfl
  rw [h2]

/-- A chunk sequence carries at least one byte per chunk. -/
theorem length_le_encodeChunks (cs : List (Str × Str)) :
    cs.length ≤ (encodeChunks cs).length := by
  induction cs with
  | nil => simp [encodeChunks]
  | cons p rest ih =>
    have h1 : encodeChunks (p :: rest) = encodeChunk p.1 p.2 ++ encodeChunks rest := by
      simp [encodeChunks]
    have h2 : 1 ≤ (encodeChunk p.1 p.2).length := by
      have : (encodeChunk p.1 p.2).length = p.1.length + p.2.length + 4 := by
        simp [encodeChunk, S]
        omega
      omega
    rw [h1, List.length_append, List.length_cons]
    omega

/-- Decoding a stream that starts with well-formed chunks consumes them all,
appending their data in order. -/
theorem readChunkedCore_encode (cs : List (Str × Str))
    (hwf : (cs.all fun p => goodChunk p.1 p.2) = true) :
    ∀ (t acc : Str) (fuel : Nat),
      readChunkedCore (fuel + cs.length) (encodeChunks cs ++ t) acc
        = readChunkedCore fuel t (acc ++ (cs.map Prod.snd).flatten) := by
  induction cs with
  | nil => intro t acc fuel; simp [encodeChunks]
  | cons p rest ih =>
    intro t acc fuel
    rw [List.all_cons, Bool.and_eq_true] at hwf
    obtain ⟨hp, hrest⟩ := hwf
    have hshape : encodeChunks (p :: rest) ++ t
        = encodeChunk p.1 p.2 ++ (encodeChunks rest ++ t) := by
      simp [encodeChunks, List.append_assoc]
    have hfuel : fuel + (p :: rest).length = (fuel + rest.length) + 1 := by
      simp [List.length_cons]
      omega
    rw [hshape, hfuel, readChunkedCore_chunk p.1 p.2 _ acc _ hp, ih hrest t (acc ++ p.2) fuel]
    simp [List.append_assoc]

/-- A malformed first frame makes the decoder stop with the accumulator. -/
theorem readChunkedCore_malformed (t acc : Str) (fuel : Nat)
    (h : malformedTailB t = true) :
    readChunkedCore (fuel + 1) t acc = .ok acc := by
  unfold malformedTailB at h
  show readChunkedCore (Nat.succ fuel) t acc = .ok acc
  split at h
  · rename_i heq
    rw [readChunkedCore, heq]
  · rename_i line rest heq
    split at h
    · rename_i hpi
      rw [readChunkedCore, heq]
      simp only
      rw [hpi]
    · rename_i n hpi
      simp only [Bool.and_eq_true, decide_eq_true_eq] at h
      obtain ⟨hpos, hlen⟩ := h
      have hpos' : 0 < n := by simpa using hpos
      have hre : readExactly n.toNat rest = none := by
        unfold readExactly
        rw [if_neg (by omega)]
      rw [readChunkedCore, heq]
      simp only
      rw [hpi]
      simp only
      rw [if_neg (by omega), if_neg (by omega), hre]

/-- A negative first size line raises the `ValueError` of `readexactly`. -/
theorem readChunkedCore_negative (t acc : Str) (fuel : Nat)
    (h : negativeSizeTailB t = true) :
    readChunkedCore (fuel + 1) t acc = .error () := by
  unfold negativeSizeTailB at h
  show readChunkedCore (Nat.succ fuel) t acc = .error ()
  split at h
  · exact Bool.noConfusion h
  · rename_i line rest heq
    split at h
    · exact Bool.noConfusion h
    · rename_i n hpi
      simp only [decide_eq_true_eq] at h
      rw [readChunkedCore, heq]
      simp only
      rw [hpi]
      simp only
      rw [if_neg (by omega), if_pos (by omega)]

/-- C6 (counterexample).  `1\r\nZ\r\n-1\r\nrest` is a chunked body
malformed mid-stream: after the one-byte chunk `Z` the size line `-1` is
not a valid chunk size — yet `int(b"-1", 16)` parses it, `readexactly(-1)`
raises an uncaught `ValueError`, and the decoder raises instead of
returning the bytes decoded so far (`Z`). -/
theorem c6_counterexample_negative_chunk_size :
    readChunkedBody (S "1\r\nZ\r\n-1\r\nrest") = .error () := rfl

/-- C6 (amended).  For a chunked body made of well-formed chunks followed by
a frame that is truncated or malformed in one of the claim's three ways —
incomplete size line, size line rejected by `int(_, 16)`, or chunk data
shorter than announced — the decoder returns exactly the bytes of the
complete chunks, raising nothing; but when the offending size line parses to
a *negative* value, the decoder instead raises (the `ValueError` from
`readexactly` is not caught). -/
theorem c6_chunked_decoder_on_malformed :
    ∀ (cs : List (Str × Str)) (t : Str),
      (cs.all fun p => goodChunk p.1 p.2) = true →
      (malformedTailB t = true →
        readChunkedBody (encodeChunks cs ++ t) = .ok ((cs.map Prod.snd).flatten))
      ∧ (negativeSizeTailB t = true →
        readChunkedBody (encodeChunks cs ++ t) = .error ()) := by
  intro cs t hwf
  have hlen : cs.length ≤ (encodeChunks cs ++ t).length := by
    calc cs.length ≤ (encodeChunks cs).length := length_le_encodeChunks cs
      _ ≤ (encodeChunks cs ++ t).length := by simp
  obtain ⟨f, hf⟩ : ∃ f, (encodeChunks cs ++ t).length + 1 = (f + 1) + cs.length :=
    ⟨(encodeChunks cs ++ t).length - cs.length, by omega⟩
  constructor
  · intro hmal
    rw [readChunkedBody, hf, readChunkedCore_encode cs hwf t [] (f + 1),
      readChunkedCore_malformed t _ f hmal]
    simp
  · intro hneg
    rw [readChunkedBody, hf, readChunkedCore_encode cs hwf t [] (f + 1),
      readChunkedCore_negative t _ f hneg]

/-- Witness for C6: one good chunk `Z`, then a size line announcing five
bytes with only two available (the incomplete-chunk-data case), and, for the
negative branch, a `-1` size line. -/
theorem c6_witness :
    readChunkedBody (encodeChunks [(S "1", S "Z")] ++ S "5\r\nab")
        = .ok (([(S "1", S "Z")].map Prod.snd).flatten)
    ∧ readChunkedBody (encodeChunks [(S "1", S "Z")] ++ S "-1\r\nab") = .error () :=
  ⟨(c6_chunked_decoder_on_malformed [(S "1", S "Z")] (S "5\r\nab") (by decide)).1 (by decide),
   (c6_chunked_decoder_on_malformed [(S "1", S "Z")] (S "-1\r\nab") (by decide)).2 (by decide)⟩

end HrsDetector
